import Mathlib

/-!
Verification development for the Value-at-Risk estimator in `Var.py`
(class `VaRCalculator`).

The Python code works on a pandas series of adjusted closing prices
fetched from an external market-data source; returns are derived by
`pct_change().dropna()`, and three VaR methods are computed on top of
`np.percentile` (default linear interpolation).  We embed the numeric
core over `ℚ` (ideal real arithmetic restricted to the rationals the
claims need), model the external price data and every random draw as
explicit arguments, and model numpy's global random generator as a
stream of draw batches together with a call counter that each random
call advances.
-/

namespace VarPy

/-- Linear-interpolation lookup at fractional position `h` in the sorted
list `s`: with `i = ⌊h⌋`, returns `s[i] + (h - i) * (s[i+1] - s[i])`,
where a missing `s[i+1]` (at the right edge) falls back to `s[i]`.
This is the positional core of `np.percentile`. -/
def interp (s : List ℚ) (h : ℚ) : ℚ :=
  s.getD (⌊h⌋).toNat 0 +
    (h - ((⌊h⌋).toNat : ℚ)) *
      (s.getD ((⌊h⌋).toNat + 1) (s.getD (⌊h⌋).toNat 0) - s.getD (⌊h⌋).toNat 0)

/-- Model of `np.percentile(xs, p)` with numpy's default method
(`linear`): sort the data and interpolate at position `p/100 * (n-1)`. -/
def percentile (xs : List ℚ) (p : ℚ) : ℚ :=
  interp (List.insertionSort (· ≤ ·) xs) (p / 100 * ((xs.length : ℚ) - 1))

/-- Model of `pandas.Series.mean()`: arithmetic mean. -/
def pandasMean (xs : List ℚ) : ℚ := xs.sum / (xs.length : ℚ)

/-- Model of the square of `pandas.Series.std()`: pandas defaults to
`ddof=1`, so the variance divides by `n - 1` (unbiased sample variance).
We keep the square so the embedding stays rational; the standard
deviation itself enters theorems as a `σ ≥ 0` with `σ^2` equal to this. -/
def pandasStdSq (xs : List ℚ) : ℚ :=
  ((xs.map fun x => (x - pandasMean xs) ^ 2).sum) / ((xs.length : ℚ) - 1)

/-- `VaRCalculator.var_parametric`: `abs(mean + std * np.percentile(z, cl*100))`
where `z` is the batch of 100000 standard-normal draws the call makes;
the draws are passed in explicitly, and `σ` stands for the computed
standard deviation. -/
def var_parametric (returns draws : List ℚ) (σ cl : ℚ) : ℚ :=
  |pandasMean returns + σ * percentile draws (cl * 100)|

/-- `VaRCalculator.var_historical`: `abs(np.percentile(returns, cl*100))`. -/
def var_historical (returns : List ℚ) (cl : ℚ) : ℚ :=
  |percentile returns (cl * 100)|

/-- `VaRCalculator.var_monte_carlo`: `abs(np.percentile(sims, cl*100))`
where `sims` is the batch of `simulations` draws from
`normal(mean, std)` the call makes; the draws are passed in explicitly. -/
def var_monte_carlo (simulated : List ℚ) (cl : ℚ) : ℚ :=
  |percentile simulated (cl * 100)|

/-- The numpy global generator, modelled as a stream `rng` of draw
batches and a counter `k`: the parametric method consumes one batch
(its standard-normal sample) and advances the counter. -/
def var_parametric_rng (returns : List ℚ) (σ cl : ℚ) (rng : ℕ → List ℚ) (k : ℕ) :
    ℚ × ℕ :=
  (var_parametric returns (rng k) σ cl, k + 1)

/-- `var_historical` makes no random call, so the counter is unchanged. -/
def var_historical_rng (returns : List ℚ) (cl : ℚ) (_rng : ℕ → List ℚ) (k : ℕ) :
    ℚ × ℕ :=
  (var_historical returns cl, k)

/-- The Monte Carlo method consumes one batch (its simulated returns)
and advances the counter. -/
def var_monte_carlo_rng (cl : ℚ) (rng : ℕ → List ℚ) (k : ℕ) : ℚ × ℕ :=
  (var_monte_carlo (rng k) cl, k + 1)

/-- Python's `int(...)` truncates toward zero. -/
def intTrunc (q : ℚ) : ℤ := if 0 ≤ q then ⌊q⌋ else ⌈q⌉

/-- The row label built in `get_var_summary`: the Python f-string
produces `str(int(cl*100))` followed by a percent sign. -/
def fmtLabel (cl : ℚ) : String := toString (intTrunc (cl * 100)) ++ "%"

/-- One row of the summary table assembled by `get_var_summary`. -/
structure VaRRow where
  confidenceLabel : String
  parametricVaR : ℚ
  historicalVaR : ℚ
  monteCarloVaR : ℚ
deriving DecidableEq

/-- `VaRCalculator.get_var_summary`: for each confidence level, in input
order, build a row from the three methods; the random calls thread the
generator counter left to right (parametric draws first, then Monte
Carlo draws). -/
def get_var_summary (returns : List ℚ) (σ : ℚ) (rng : ℕ → List ℚ) :
    List ℚ → ℕ → List VaRRow
  | [], _ => []
  | cl :: rest, k =>
    let p := var_parametric_rng returns σ cl rng k
    let h := var_historical_rng returns cl rng p.2
    let m := var_monte_carlo_rng cl rng h.2
    ⟨fmtLabel cl, p.1, h.1, m.1⟩ :: get_var_summary returns σ rng rest m.2

/-- A raised Python exception: its type and its message. -/
structure PyError where
  excType : String
  message : String
deriving DecidableEq

/-- The message raised in `_download_data` when the source returns no
data (the ticker is interpolated into it). -/
def dataUnavailableMsg (ticker : String) : String :=
  "No se encontraron datos para " ++ ticker ++ " en el periodo dado."

/-- The message raised in `_calculate_returns` when the derived return
series is empty. -/
def emptyReturnsMsg : String :=
  "Serie de retornos vacía. Ajusta el período o activo seleccionado."

/-- `VaRCalculator._calculate_returns`: `pct_change().dropna()` maps
consecutive price pairs to `p_i / p_(i-1) - 1`, dropping the undefined
first difference. -/
def calculate_returns (prices : List ℚ) : List ℚ :=
  (prices.zip prices.tail).map fun pr => pr.2 / pr.1 - 1

/-- `VaRCalculator.__init__`: the downloaded price series is passed in
as the external source's response; an empty response raises a
`ValueError`, and so does an empty derived return series.  On success
the constructed state is the pair (data, returns). -/
def mkVaRCalculator (ticker : String) (priceData : List ℚ) :
    Except PyError (List ℚ × List ℚ) :=
  if priceData.isEmpty then
    .error ⟨"ValueError", dataUnavailableMsg ticker⟩
  else if (calculate_returns priceData).isEmpty then
    .error ⟨"ValueError", emptyReturnsMsg⟩
  else
    .ok (priceData, calculate_returns priceData)

/-- The return series of the spec's worked example. -/
def exampleReturns : List ℚ :=
  [1/100, -2/100, 15/1000, -5/1000, 2/100, -1/100, 5/1000, -3/100, 12/1000, -8/1000]

/-! ### Helper lemmas about sorted access and interpolation -/

lemma sorted_getD_le (s : List ℚ) (hs : s.Sorted (· ≤ ·)) {a b : ℕ}
    (hab : a ≤ b) (hb : b < s.length) : s.getD a 0 ≤ s.getD b 0 := by
  have ha : a < s.length := lt_of_le_of_lt hab hb
  rw [List.getD_eq_getElem _ _ ha, List.getD_eq_getElem _ _ hb]
  have := hs.rel_get_of_le (show (⟨a, ha⟩ : Fin s.length) ≤ ⟨b, hb⟩ from hab)
  simpa using this

lemma getD_le_getD_succ (s : List ℚ) (hs : s.Sorted (· ≤ ·)) {j : ℕ}
    (hj : j < s.length) : s.getD j 0 ≤ s.getD (j + 1) (s.getD j 0) := by
  rcases Nat.lt_or_ge (j + 1) s.length with hj1 | hj1
  · rw [List.getD_eq_getElem _ _ hj1, List.getD_eq_getElem _ _ hj]
    have := hs.rel_get_of_le
      (show (⟨j, hj⟩ : Fin s.length) ≤ ⟨j + 1, hj1⟩ from Nat.le_succ j)
    simpa using this
  · rw [List.getD_eq_default _ _ hj1]

lemma interp_le_interp (s : List ℚ) (hs : s.Sorted (· ≤ ·)) {h h' : ℚ}
    (h0 : 0 ≤ h) (hle : h ≤ h') (hub : h' ≤ (s.length : ℚ) - 1) :
    interp s h ≤ interp s h' := by
  have h0' : 0 ≤ h' := le_trans h0 hle
  have hfl : (0 : ℤ) ≤ ⌊h⌋ := Int.le_floor.mpr (by exact_mod_cast h0)
  have hfl' : (0 : ℤ) ≤ ⌊h'⌋ := Int.le_floor.mpr (by exact_mod_cast h0')
  have hcast : ((⌊h⌋.toNat : ℕ) : ℚ) = (⌊h⌋ : ℚ) := by
    exact_mod_cast congrArg (fun z : ℤ => (z : ℚ)) (Int.toNat_of_nonneg hfl)
  have hcast' : ((⌊h'⌋.toNat : ℕ) : ℚ) = (⌊h'⌋ : ℚ) := by
    exact_mod_cast congrArg (fun z : ℤ => (z : ℚ)) (Int.toNat_of_nonneg hfl')
  have hil : ((⌊h⌋.toNat : ℕ) : ℚ) ≤ h := by rw [hcast]; exact Int.floor_le h
  have hil' : ((⌊h'⌋.toNat : ℕ) : ℚ) ≤ h' := by rw [hcast']; exact Int.floor_le h'
  have hiu : h < ((⌊h⌋.toNat : ℕ) : ℚ) + 1 := by rw [hcast]; exact Int.lt_floor_add_one h
  have hii : ⌊h⌋.toNat ≤ ⌊h'⌋.toNat := Int.toNat_le_toNat (Int.floor_le_floor hle)
  have hi'n : ⌊h'⌋.toNat < s.length := by
    have hq : ((⌊h'⌋.toNat : ℕ) : ℚ) + 1 ≤ (s.length : ℚ) := by
      have := le_trans hil' hub
      linarith
    exact_mod_cast hq
  rcases Nat.lt_or_ge ⌊h⌋.toNat ⌊h'⌋.toNat with hlt | hge
  · -- the two positions land in different cells: pass through the cell edges
    have hin : ⌊h⌋.toNat < s.length := lt_trans hlt hi'n
    have hd : 0 ≤ s.getD (⌊h⌋.toNat + 1) (s.getD ⌊h⌋.toNat 0) - s.getD ⌊h⌋.toNat 0 :=
      sub_nonneg.mpr (getD_le_getD_succ s hs hin)
    have hd' : 0 ≤ s.getD (⌊h'⌋.toNat + 1) (s.getD ⌊h'⌋.toNat 0) - s.getD ⌊h'⌋.toNat 0 :=
      sub_nonneg.mpr (getD_le_getD_succ s hs hi'n)
    have step1 : interp s h ≤ s.getD (⌊h⌋.toNat + 1) (s.getD ⌊h⌋.toNat 0) := by
      unfold interp
      have hfrac : h - ((⌊h⌋.toNat : ℕ) : ℚ) ≤ 1 := by linarith
      nlinarith
    have hsucc : ⌊h⌋.toNat + 1 < s.length := Nat.lt_of_le_of_lt hlt hi'n
    have step2 : s.getD (⌊h⌋.toNat + 1) (s.getD ⌊h⌋.toNat 0) ≤ s.getD ⌊h'⌋.toNat 0 := by
      rw [List.getD_eq_getElem _ _ hsucc, ← List.getD_eq_getElem s 0 hsucc]
      exact sorted_getD_le s hs hlt hi'n
    have step3 : s.getD ⌊h'⌋.toNat 0 ≤ interp s h' := by
      unfold interp
      have hfrac' : 0 ≤ h' - ((⌊h'⌋.toNat : ℕ) : ℚ) := by linarith
      nlinarith
    exact le_trans step1 (le_trans step2 step3)
  · -- same cell: the interpolation is monotone in the fractional part
    have heq : ⌊h⌋.toNat = ⌊h'⌋.toNat := le_antisymm hii hge
    unfold interp
    rw [heq]
    have hd' : 0 ≤ s.getD (⌊h'⌋.toNat + 1) (s.getD ⌊h'⌋.toNat 0) - s.getD ⌊h'⌋.toNat 0 :=
      sub_nonneg.mpr (getD_le_getD_succ s hs hi'n)
    have : h - ((⌊h'⌋.toNat : ℕ) : ℚ) ≤ h' - ((⌊h'⌋.toNat : ℕ) : ℚ) := by linarith
    nlinarith

lemma percentile_mono (xs : List ℚ) (hne : xs ≠ []) {p p' : ℚ}
    (hp0 : 0 ≤ p) (hpp : p ≤ p') (hp100 : p' ≤ 100) :
    percentile xs p ≤ percentile xs p' := by
  have hsort : (List.insertionSort (· ≤ ·) xs).Sorted (· ≤ ·) :=
    List.sorted_insertionSort _ _
  have hlen : (List.insertionSort (· ≤ ·) xs).length = xs.length :=
    (List.perm_insertionSort _ _).length_eq
  have hn : 1 ≤ xs.length := List.length_pos.mpr hne
  have hnq : (1 : ℚ) ≤ (xs.length : ℚ) := by exact_mod_cast hn
  unfold percentile
  apply interp_le_interp _ hsort
  · exact mul_nonneg (by positivity) (by linarith)
  · exact mul_le_mul_of_nonneg_right (by linarith) (by linarith)
  · rw [hlen]
    have : p' / 100 ≤ 1 := by linarith
    nlinarith

lemma interp_natCast (s : List ℚ) (m : ℕ) : interp s ((m : ℕ) : ℚ) = s.getD m 0 := by
  unfold interp
  rw [Int.floor_natCast]
  simp

lemma interp_zero (s : List ℚ) : interp s 0 = s.getD 0 0 := by
  simpa using interp_natCast s 0

lemma var_historical_zero (xs : List ℚ) :
    var_historical xs 0 = |(List.insertionSort (· ≤ ·) xs).getD 0 0| := by
  unfold var_historical percentile
  norm_num [interp_zero]

lemma var_historical_one (xs : List ℚ) (hne : xs ≠ []) :
    var_historical xs 1 = |(List.insertionSort (· ≤ ·) xs).getD (xs.length - 1) 0| := by
  have hn : 1 ≤ xs.length := List.length_pos.mpr hne
  have hcast : (1 : ℚ) * 100 / 100 * ((xs.length : ℚ) - 1) = ((xs.length - 1 : ℕ) : ℚ) := by
    rw [Nat.cast_sub hn]
    push_cast
    ring
  unfold var_historical percentile
  rw [hcast, interp_natCast]

lemma sorted_head_is_min (xs : List ℚ) (hne : xs ≠ []) :
    (List.insertionSort (· ≤ ·) xs).getD 0 0 ∈ xs ∧
      ∀ y ∈ xs, (List.insertionSort (· ≤ ·) xs).getD 0 0 ≤ y := by
  have hperm := List.perm_insertionSort (· ≤ ·) xs
  have hsort := List.sorted_insertionSort (· ≤ ·) xs
  have hlen : 0 < (List.insertionSort (· ≤ ·) xs).length := by
    rw [hperm.length_eq]
    exact List.length_pos.mpr hne
  constructor
  · refine hperm.mem_iff.mp ?_
    rw [List.getD_eq_getElem _ _ hlen]
    exact List.getElem_mem _
  · intro y hy
    obtain ⟨j, hj⟩ := List.mem_iff_get.mp (hperm.mem_iff.mpr hy)
    rw [List.getD_eq_getElem _ _ hlen, ← hj]
    have := hsort.rel_get_of_le (show (⟨0, hlen⟩ : Fin _) ≤ j from Nat.zero_le _)
    simpa using this

lemma sorted_last_is_max (xs : List ℚ) (hne : xs ≠ []) :
    (List.insertionSort (· ≤ ·) xs).getD (xs.length - 1) 0 ∈ xs ∧
      ∀ y ∈ xs, y ≤ (List.insertionSort (· ≤ ·) xs).getD (xs.length - 1) 0 := by
  have hperm := List.perm_insertionSort (· ≤ ·) xs
  have hsort := List.sorted_insertionSort (· ≤ ·) xs
  have hpos : 0 < xs.length := List.length_pos.mpr hne
  have hlast : xs.length - 1 < (List.insertionSort (· ≤ ·) xs).length := by
    rw [hperm.length_eq]
    omega
  constructor
  · refine hperm.mem_iff.mp ?_
    rw [List.getD_eq_getElem _ _ hlast]
    exact List.getElem_mem _
  · intro y hy
    obtain ⟨j, hj⟩ := List.mem_iff_get.mp (hperm.mem_iff.mpr hy)
    rw [List.getD_eq_getElem _ _ hlast, ← hj]
    have hj' : (j : ℕ) ≤ xs.length - 1 := by
      have h1 := j.isLt
      have h2 := hperm.length_eq
      omega
    have := hsort.rel_get_of_le (show j ≤ (⟨xs.length - 1, hlast⟩ : Fin _) from hj')
    simpa using this

/-! ### Claim theorems (first group) -/

/-- C3: for every return series whose empirical 1st, 5th and 10th
percentiles are non-positive, the historical VaR magnitudes are
antitone in the confidence level:
`historicalVaR(0.10) ≤ historicalVaR(0.05) ≤ historicalVaR(0.01)`. -/
theorem var_historical_antitone (xs : List ℚ) (hne : xs ≠ [])
    (h1 : percentile xs 1 ≤ 0) (h5 : percentile xs 5 ≤ 0) (h10 : percentile xs 10 ≤ 0) :
    var_historical xs (10/100) ≤ var_historical xs (5/100) ∧
      var_historical xs (5/100) ≤ var_historical xs (1/100) := by
  have m15 : percentile xs 1 ≤ percentile xs 5 :=
    percentile_mono xs hne (by norm_num) (by norm_num) (by norm_num)
  have m510 : percentile xs 5 ≤ percentile xs 10 :=
    percentile_mono xs hne (by norm_num) (by norm_num) (by norm_num)
  unfold var_historical
  rw [show (10:ℚ)/100 * 100 = 10 by norm_num, show (5:ℚ)/100 * 100 = 5 by norm_num,
    show (1:ℚ)/100 * 100 = 1 by norm_num]
  rw [abs_of_nonpos h10, abs_of_nonpos h5, abs_of_nonpos h1]
  constructor <;> linarith

/-- Witness for C3 on the concrete all-negative series `[-4, -3, -2, -1]`. -/
theorem var_historical_antitone_witness :
    var_historical [(-4:ℚ), -3, -2, -1] (10/100) ≤ var_historical [(-4:ℚ), -3, -2, -1] (5/100) ∧
      var_historical [(-4:ℚ), -3, -2, -1] (5/100) ≤ var_historical [(-4:ℚ), -3, -2, -1] (1/100) :=
  var_historical_antitone [(-4:ℚ), -3, -2, -1] (by simp)
    (by norm_num [percentile, interp, List.insertionSort, List.orderedInsert, List.getD])
    (by norm_num [percentile, interp, List.insertionSort, List.orderedInsert, List.getD])
    (by norm_num [percentile, interp, List.insertionSort, List.orderedInsert, List.getD])

/-- C10: the historical method performs no confidence-level validation:
it accepts the boundary levels 0 and 1 (outside the spec's open domain)
and returns the absolute minimum resp. maximum of the return series
instead of raising any error. -/
theorem var_historical_boundary (xs : List ℚ) (hne : xs ≠ []) :
    ∃ m M : ℚ, m ∈ xs ∧ M ∈ xs ∧ (∀ y ∈ xs, m ≤ y ∧ y ≤ M) ∧
      var_historical xs 0 = |m| ∧ var_historical xs 1 = |M| := by
  obtain ⟨hm1, hm2⟩ := sorted_head_is_min xs hne
  obtain ⟨hM1, hM2⟩ := sorted_last_is_max xs hne
  exact ⟨_, _, hm1, hM1, fun y hy => ⟨hm2 y hy, hM2 y hy⟩,
    var_historical_zero xs, var_historical_one xs hne⟩

/-- Witness for C10 on the concrete series `[2, -5, 3]`. -/
theorem var_historical_boundary_witness :
    ∃ m M : ℚ, m ∈ [(2:ℚ), -5, 3] ∧ M ∈ [(2:ℚ), -5, 3] ∧
      (∀ y ∈ [(2:ℚ), -5, 3], m ≤ y ∧ y ≤ M) ∧
      var_historical [(2:ℚ), -5, 3] 0 = |m| ∧ var_historical [(2:ℚ), -5, 3] 1 = |M| :=
  var_historical_boundary [(2:ℚ), -5, 3] (by simp)

/-! ### Summary rows -/

/-- Default row used only as the out-of-range fallback of `List.getD`. -/
def defaultRow : VaRRow := ⟨"", 0, 0, 0⟩

lemma get_var_summary_length (returns : List ℚ) (σ : ℚ) (rng : ℕ → List ℚ) :
    ∀ (levels : List ℚ) (k : ℕ),
      (get_var_summary returns σ rng levels k).length = levels.length
  | [], _ => rfl
  | cl :: rest, k => by
    simp only [get_var_summary, List.length_cons]
    rw [get_var_summary_length returns σ rng rest]

lemma get_var_summary_getD (returns : List ℚ) (σ : ℚ) (rng : ℕ → List ℚ) :
    ∀ (levels : List ℚ) (k i : ℕ), i < levels.length →
      (get_var_summary returns σ rng levels k).getD i defaultRow =
        ⟨fmtLabel (levels.getD i 0),
         var_parametric returns (rng (2 * i + k)) σ (levels.getD i 0),
         var_historical returns (levels.getD i 0),
         var_monte_carlo (rng (2 * i + k + 1)) (levels.getD i 0)⟩
  | [], _, i, hi => absurd hi (by simp)
  | cl :: rest, k, 0, _ => by
    simp [get_var_summary, var_parametric_rng, var_historical_rng, var_monte_carlo_rng]
  | cl :: rest, k, i + 1, hi => by
    have ih := get_var_summary_getD returns σ rng rest (k + 2) i
      (by simpa using Nat.lt_of_succ_lt_succ hi)
    have e1 : 2 * i + (k + 2) = 2 * (i + 1) + k := by omega
    rw [e1] at ih
    simpa [get_var_summary, var_parametric_rng, var_historical_rng,
      var_monte_carlo_rng] using ih

/-- C4: the summary has exactly one row per input confidence level, in
input order (duplicates kept), the i-th row carrying the label
`str(int(level*100)) ++ "%"` and the three VaR values computed for that
level (with the parametric and Monte Carlo draw batches the iteration
consumes from the generator stream). -/
theorem get_var_summary_rows (returns : List ℚ) (σ : ℚ) (rng : ℕ → List ℚ)
    (levels : List ℚ) :
    (get_var_summary returns σ rng levels 0).length = levels.length ∧
      ∀ i, i < levels.length →
        (get_var_summary returns σ rng levels 0).getD i defaultRow =
          ⟨fmtLabel (levels.getD i 0),
           var_parametric returns (rng (2 * i)) σ (levels.getD i 0),
           var_historical returns (levels.getD i 0),
           var_monte_carlo (rng (2 * i + 1)) (levels.getD i 0)⟩ := by
  refine ⟨get_var_summary_length returns σ rng levels 0, fun i hi => ?_⟩
  simpa using get_var_summary_getD returns σ rng levels 0 i hi

/-- Witness for C4: the second row of a two-level summary, with
duplicate-free concrete data. -/
theorem get_var_summary_rows_witness :
    (get_var_summary [1/100, -2/100] 0 (fun _ => [0]) [1/100, 1/10] 0).getD 1 defaultRow =
      ⟨fmtLabel (1/10),
       var_parametric [1/100, -2/100] [0] 0 (1/10),
       var_historical [1/100, -2/100] (1/10),
       var_monte_carlo [0] (1/10)⟩ := by
  have h := (get_var_summary_rows [1/100, -2/100] 0 (fun _ => [0]) [1/100, 1/10]).2 1
    (by norm_num)
  simpa using h

/-! ### Return derivation -/

lemma calculate_returns_cons (p q : ℚ) (rest : List ℚ) :
    calculate_returns (p :: q :: rest) = (q / p - 1) :: calculate_returns (q :: rest) := rfl

lemma calculate_returns_length : ∀ ps : List ℚ, (calculate_returns ps).length = ps.length - 1
  | [] => rfl
  | [_] => rfl
  | p :: q :: rest => by
    rw [calculate_returns_cons]
    simp only [List.length_cons]
    rw [calculate_returns_length (q :: rest)]
    simp

lemma calculate_returns_getD : ∀ (ps : List ℚ) (i : ℕ), i + 1 < ps.length →
    (calculate_returns ps).getD i 0 = ps.getD (i + 1) 0 / ps.getD i 0 - 1
  | [], i, hi => by simp at hi
  | [_], i, hi => by simp at hi
  | p :: q :: rest, 0, _ => by
    rw [calculate_returns_cons]
    simp
  | p :: q :: rest, i + 1, hi => by
    rw [calculate_returns_cons]
    simp only [List.getD_cons_succ]
    exact calculate_returns_getD (q :: rest) i (by simpa using Nat.lt_of_succ_lt_succ hi)

/-- C6: for a price series of at least two positive prices, the derived
return series has exactly `n - 1` elements, its i-th element is the
simple percentage change `price(i+1)/price(i) - 1`, and it is
non-empty. -/
theorem calculate_returns_spec (ps : List ℚ) (h2 : 2 ≤ ps.length)
    (hpos : ∀ p ∈ ps, 0 < p) :
    (calculate_returns ps).length = ps.length - 1 ∧
      (∀ i, i + 1 < ps.length →
        (calculate_returns ps).getD i 0 = ps.getD (i + 1) 0 / ps.getD i 0 - 1) ∧
      calculate_returns ps ≠ [] := by
  refine ⟨calculate_returns_length ps, fun i hi => calculate_returns_getD ps i hi, ?_⟩
  intro hnil
  have hlen := calculate_returns_length ps
  rw [hnil] at hlen
  simp at hlen
  omega

/-- Witness for C6 on the concrete price series `[100, 110, 99]`. -/
theorem calculate_returns_spec_witness :
    (calculate_returns [100, 110, 99]).length = ([100, 110, 99] : List ℚ).length - 1 ∧
      (∀ i, i + 1 < ([100, 110, 99] : List ℚ).length →
        (calculate_returns [100, 110, 99]).getD i 0 =
          ([100, 110, 99] : List ℚ).getD (i + 1) 0 / ([100, 110, 99] : List ℚ).getD i 0 - 1) ∧
      calculate_returns [100, 110, 99] ≠ [] :=
  calculate_returns_spec [100, 110, 99] (by norm_num) (by norm_num)

/-! ### Construction failures -/

/-- C5: constructing over an empty price series fails with the
data-unavailable `ValueError`, a one-element series fails with the
empty-returns `ValueError`, and a successful construction never carries
an empty return series. -/
theorem mkVaRCalculator_failures (ticker : String) :
    mkVaRCalculator ticker [] = .error ⟨"ValueError", dataUnavailableMsg ticker⟩ ∧
      (∀ p : ℚ, mkVaRCalculator ticker [p] = .error ⟨"ValueError", emptyReturnsMsg⟩) ∧
      ∀ (ps d r : List ℚ), mkVaRCalculator ticker ps = .ok (d, r) → r ≠ [] := by
  refine ⟨rfl, fun p => rfl, fun ps d r hok => ?_⟩
  unfold mkVaRCalculator at hok
  split_ifs at hok with hempty hret
  all_goals cases hok
  all_goals simpa using hret

/-- Witness for C5: a successful construction from two prices, whose
return series `[1/10]` is indeed non-empty. -/
theorem mkVaRCalculator_failures_witness : ([1/10] : List ℚ) ≠ [] :=
  (mkVaRCalculator_failures "SPY").2.2 [100, 110] [100, 110] [1/10]
    (by norm_num [mkVaRCalculator, calculate_returns])

lemma str_data_append (s t : String) : (s ++ t).data = s.data ++ t.data := by
  cases s
  cases t
  rfl

lemma head_append_of_ne_nil {α : Type} (l₁ l₂ : List α) (h : l₁ ≠ []) :
    (l₁ ++ l₂).head? = l₁.head? := by
  cases l₁ with
  | nil => exact absurd rfl h
  | cons a t => rfl

lemma dataUnavailableMsg_ne (t : String) : dataUnavailableMsg t ≠ emptyReturnsMsg := by
  intro hEq
  have h2 : (dataUnavailableMsg t).data.head? = emptyReturnsMsg.data.head? := by rw [hEq]
  unfold dataUnavailableMsg at h2
  rw [str_data_append, str_data_append, List.append_assoc,
    head_append_of_ne_nil "No se encontraron datos para ".data
      (t.data ++ " en el periodo dado.".data) (by decide)] at h2
  exact absurd h2 (by decide)

/-- C9: the two construction failures are raised as the same exception
type (ValueError) and differ only in their message text. -/
theorem construction_errors_same_type (ticker : String) (p : ℚ) :
    ∃ e₁ e₂ : PyError,
      mkVaRCalculator ticker [] = .error e₁ ∧
      mkVaRCalculator ticker [p] = .error e₂ ∧
      e₁.excType = "ValueError" ∧ e₂.excType = "ValueError" ∧
      e₁.excType = e₂.excType ∧ e₁.message ≠ e₂.message :=
  ⟨⟨"ValueError", dataUnavailableMsg ticker⟩, ⟨"ValueError", emptyReturnsMsg⟩,
    rfl, rfl, rfl, rfl, rfl, dataUnavailableMsg_ne ticker⟩

/-! ### The worked example, determinism, non-negativity, the parametric formula -/

lemma var_historical_example_eval : var_historical exampleReturns (1/10) = 21/1000 := by
  norm_num [var_historical, percentile, interp, exampleReturns, List.insertionSort,
    List.orderedInsert, List.getD]

/-- C1 counterexample: on the spec's example series the historical VaR at
confidence level 0.1 is exactly 0.021, which is not within 0.001 of the
0.0279 the claim asserts. -/
theorem var_historical_example_not_near_0279 :
    ¬ |var_historical exampleReturns (1/10) - 279/10000| < 1/1000 := by
  rw [var_historical_example_eval,
    show (21/1000 : ℚ) - 279/10000 = -(69/10000) by norm_num, abs_neg,
    abs_of_nonneg (by norm_num : (0:ℚ) ≤ 69/10000)]
  norm_num

/-- C1 amended: on the example series the historical VaR at level 0.1 is
the absolute value of the linear-interpolation 10th percentile, which is
-0.021; so the result is within 0.001 of 0.021 (not of 0.0279). -/
theorem var_historical_example :
    var_historical exampleReturns (1/10) = |percentile exampleReturns 10| ∧
      percentile exampleReturns 10 = -(21/1000) ∧
      |var_historical exampleReturns (1/10) - 21/1000| < 1/1000 := by
  refine ⟨by norm_num [var_historical], ?_, ?_⟩
  · norm_num [percentile, interp, exampleReturns, List.insertionSort,
      List.orderedInsert, List.getD]
  · rw [var_historical_example_eval]
    norm_num

/-- C2: for every non-empty return series and confidence level in (0,1),
each of the three VaR methods returns a non-negative value, whatever the
random draw batches are. -/
theorem var_methods_nonneg (returns draws sims : List ℚ) (σ cl : ℚ)
    (hne : returns ≠ []) (h0 : 0 < cl) (h1 : cl < 1) :
    0 ≤ var_parametric returns draws σ cl ∧ 0 ≤ var_historical returns cl ∧
      0 ≤ var_monte_carlo sims cl :=
  ⟨abs_nonneg _, abs_nonneg _, abs_nonneg _⟩

/-- Witness for C2 at a concrete series, draws and level. -/
theorem var_methods_nonneg_witness :
    0 ≤ var_parametric [1/100, -2/100] [0] 1 (1/20) ∧
      0 ≤ var_historical [1/100, -2/100] (1/20) ∧
      0 ≤ var_monte_carlo [0] (1/20) :=
  var_methods_nonneg [1/100, -2/100] [0] [0] 1 (1/20) (by simp) (by norm_num) (by norm_num)

/-- Spec-side definition, from the spec's words: the sample mean of the
return series. -/
def specSampleMean (xs : List ℚ) : ℚ := xs.sum / (xs.length : ℚ)

/-- Spec-side definition, from the spec's words: the unbiased sample
variance with n-1 denominator (the square of the spec's sample standard
deviation). -/
def specSampleVar (xs : List ℚ) : ℚ :=
  ((xs.map fun x => (x - specSampleMean xs) ^ 2).sum) / ((xs.length : ℚ) - 1)

/-- C7: the parametric VaR equals the absolute value of mu plus sigma
times the percentile-based standard-normal quantile, where mu is the
spec's sample mean and sigma (characterized by sigma squared) is the
spec's unbiased n-1 sample standard deviation. -/
theorem var_parametric_formula (returns draws : List ℚ) (σ cl : ℚ)
    (hσ0 : 0 ≤ σ) (hσ : σ ^ 2 = pandasStdSq returns) :
    var_parametric returns draws σ cl =
      |specSampleMean returns + σ * percentile draws (cl * 100)| ∧
      σ ^ 2 = specSampleVar returns :=
  ⟨rfl, hσ⟩

/-- Witness for C7: the series [1, 3, 5] has unbiased sample variance 4,
so its sample standard deviation is 2. -/
theorem var_parametric_formula_witness :
    var_parametric [1, 3, 5] [0] 2 (1/20) =
      |specSampleMean [1, 3, 5] + 2 * percentile [0] ((1/20) * 100)| ∧
      (2 : ℚ) ^ 2 = specSampleVar [1, 3, 5] :=
  var_parametric_formula [1, 3, 5] [0] 2 (1/20) (by norm_num)
    (by norm_num [pandasStdSq, pandasMean])

/-- C8: the historical method is deterministic: two calls with the same
return series and confidence level but different generator streams and
states return the same value, and the generator state is left
untouched. -/
theorem var_historical_deterministic (returns : List ℚ) (cl : ℚ)
    (rng₁ rng₂ : ℕ → List ℚ) (k₁ k₂ : ℕ) :
    (var_historical_rng returns cl rng₁ k₁).1 = (var_historical_rng returns cl rng₂ k₂).1 ∧
      (var_historical_rng returns cl rng₁ k₁).2 = k₁ :=
  ⟨rfl, rfl⟩

end VarPy
